import Mathlib

/-!
Verification of the Linmo RTOS kernel core: a shallow embedding, in Lean 4,
of the scheduler, task lifecycle, semaphore, mutex, message queue, byte pipe
and software timer operations, translated from the C sources, together with
theorems settling the specification claims about them.

Machine integers are modelled as `Nat`/`Int` with explicit masking where the
C code masks.  Code that can `panic` is modelled with `Except Int`, the error
payload being the panic code.  Helper modules of the repository that are not
part of the provided sources (the generic bounded FIFO `lib/queue.c`, the
intrusive list `lib/list.c`, `private/error.h`, `private/utils.h`) are
modelled from the specification; each such definition is marked
`Modelled from the spec:` in its doc comment.
-/

namespace Linmo

/-- Task lifecycle states, from `enum task_states` in `sys/task.h`. -/
inductive TaskState
  | stopped
  | ready
  | running
  | blocked
  | suspended
  deriving DecidableEq, Repr

/-- Task control block, from `tcb_t` in `sys/task.h`.  The saved CPU context,
stack pointer and entry point are omitted: they are opaque to the scheduler
logic under verification.  `rt_prio` records whether the opaque real-time
hook pointer is non-null. -/
structure Tcb where
  id : Nat
  prio : Nat
  delay : Nat
  state : TaskState
  rt_prio : Bool
  deriving DecidableEq, Repr

/-! ### Error codes

Modelled from the spec: `private/error.h` is not among the provided sources.
The spec (§6) pins `OK = 0` and says the remaining codes are distinct stable
negative integers; we assign them descending values in the spec's listing
order.  No theorem below depends on the particular negative numeral chosen,
only on `ERR_OK = 0` (spec-pinned) and on distinctness. -/

def ERR_OK : Int := 0
def ERR_FAIL : Int := -1
def ERR_TASK_BUSY : Int := -2
def ERR_TASK_NOT_FOUND : Int := -3
def ERR_TASK_CANT_REMOVE : Int := -4
def ERR_TASK_CANT_SUSPEND : Int := -5
def ERR_TASK_CANT_RESUME : Int := -6
def ERR_TASK_INVALID_PRIO : Int := -7
def ERR_SEM_OPERATION : Int := -8
def ERR_NOT_OWNER : Int := -9
def ERR_TIMEOUT : Int := -10
def ERR_MQ_NOTEMPTY : Int := -11
def ERR_STACK_CHECK : Int := -12
def ERR_NO_TASKS : Int := -16

/-! ### Priority encoding

From `enum task_priorities` in `sys/task.h`: a 16-bit word whose high byte is
the static base weight and whose low byte is the live countdown counter. -/

def TASK_PRIO_CRIT : Nat := 0x0101
def TASK_PRIO_REALTIME : Nat := 0x0303
def TASK_PRIO_HIGH : Nat := 0x0707
def TASK_PRIO_ABOVE : Nat := 0x0F0F
def TASK_PRIO_NORMAL : Nat := 0x1F1F
def TASK_PRIO_BELOW : Nat := 0x3F3F
def TASK_PRIO_LOW : Nat := 0x7F7F
def TASK_PRIO_IDLE : Nat := 0xFFFF

/-- The countdown byte of a priority word: C `prio & 0xFF`. -/
def prio_counter (p : Nat) : Nat := p % 256

/-- The base-weight byte of a priority word: C `(prio >> 8) & 0xFF`. -/
def prio_base (p : Nat) : Nat := p / 256 % 256

/-- Overwrite the countdown byte: C `(prio & 0xFF00) | c` for a byte `c`. -/
def prio_set_counter (p c : Nat) : Nat := p / 256 % 256 * 256 + c

/-- The table `valid_priorities` from the scheduler source. -/
def valid_priorities : List Nat :=
  [TASK_PRIO_CRIT, TASK_PRIO_REALTIME, TASK_PRIO_HIGH, TASK_PRIO_ABOVE,
   TASK_PRIO_NORMAL, TASK_PRIO_BELOW, TASK_PRIO_LOW, TASK_PRIO_IDLE]

/-- `is_valid_priority` from the scheduler source: linear scan of the table. -/
def is_valid_priority (priority : Nat) : Bool :=
  valid_priorities.contains priority

/-- The priority word written into a fresh TCB by `mo_task_spawn`:
C `uint8_t base = (uint8_t)(TASK_PRIO_NORMAL >> 8); tcb->prio = ((uint16_t) base << 8);`.
The low (countdown) byte is left at zero for immediate eligibility. -/
def mo_task_spawn_prio : Nat :=
  let base := TASK_PRIO_NORMAL / 256 % 256
  base * 256

/-- The TCB constructed by `mo_task_spawn` just before it returns: fields as
assigned in the source (`delay = 0`, `rt_prio = NULL`, default priority with
zero counter, final state `TASK_READY`). -/
def mo_task_spawn_tcb (id : Nat) : Tcb :=
  { id := id
    prio := mo_task_spawn_prio
    delay := 0
    state := TaskState.ready
    rt_prio := false }

/-- The priority word written by `mo_task_priority` for a requested value:
C `uint8_t base = (uint8_t)(priority >> 8); task->prio = ((uint16_t) base << 8) | base;`. -/
def mo_task_priority_prio (priority : Nat) : Nat :=
  priority / 256 % 256 * 256 + priority / 256 % 256

/-! ### `mo_task_delay`

From the scheduler source: a zero tick count returns immediately; otherwise
the caller's TCB gets `delay = ticks`, `state = TASK_BLOCKED`, and the task
yields.  The returned boolean records whether `mo_task_yield` was invoked. -/

def mo_task_delay (self : Tcb) (ticks : Nat) : Tcb × Bool :=
  if ticks = 0 then (self, false)
  else ({ self with delay := ticks, state := TaskState.blocked }, true)

/-! ### Mutex

From the mutex source (`mo_mutex_*`).  The `magic` validity word is modelled
as a boolean `magic_valid` (the magic constant lives in `sys/mutex.h`, which
is not among the provided sources; only its validity test matters).  The
waiters list holds the blocked tasks' TCBs in FIFO order, head first. -/

structure MutexState where
  waiters : List Tcb
  owner_tid : Nat
  magic_valid : Bool
  deriving DecidableEq, Repr

/-- `mutex_is_valid` from the mutex source. -/
def mutex_is_valid (m : MutexState) : Bool := m.magic_valid

/-- `mo_mutex_trylock`: result is the updated mutex and the return code. -/
def mo_mutex_trylock (m : MutexState) (self_tid : Nat) : MutexState × Int :=
  if ¬ mutex_is_valid m then (m, ERR_FAIL)
  else if m.owner_tid = self_tid then (m, ERR_TASK_BUSY)
  else if m.owner_tid = 0 then ({ m with owner_tid := self_tid }, ERR_OK)
  else (m, ERR_TASK_BUSY)

/-- The entry of `mo_mutex_timedlock` up to its first suspension point.
`none` means execution reached the blocking protocol (enqueue, block, poll),
which suspends the caller; any `some` result is returned without blocking.
The source's zero-timeout path is `if (ticks == 0) return mo_mutex_trylock(m);`. -/
def mo_mutex_timedlock_entry (m : MutexState) (self_tid : Nat) (ticks : Nat) :
    Option (MutexState × Int) :=
  if ¬ mutex_is_valid m then some (m, ERR_FAIL)
  else if ticks = 0 then some (mo_mutex_trylock m self_tid)
  else if m.owner_tid = self_tid then some (m, ERR_TASK_BUSY)
  else if m.owner_tid = 0 then some ({ m with owner_tid := self_tid }, ERR_OK)
  else none

/-- `mo_mutex_unlock`.  On success the result is the updated mutex, the waiter
transferred to `TASK_READY` (if any), and the return code; `Except.error`
models `panic` (waiter popped in a state other than `TASK_BLOCKED`). -/
def mo_mutex_unlock (m : MutexState) (self_tid : Nat) :
    Except Int (MutexState × Option Tcb × Int) :=
  if ¬ mutex_is_valid m then Except.ok (m, none, ERR_FAIL)
  else if m.owner_tid ≠ self_tid then Except.ok (m, none, ERR_NOT_OWNER)
  else
    match m.waiters with
    | [] => Except.ok ({ m with owner_tid := 0 }, none, ERR_OK)
    | next_owner :: rest =>
        if next_owner.state = TaskState.blocked then
          Except.ok ({ m with owner_tid := next_owner.id, waiters := rest },
                     some { next_owner with state := TaskState.ready }, ERR_OK)
        else Except.error ERR_SEM_OPERATION

/-! ### Scheduler and task lifecycle

From the scheduler source.  The master circular task list is modelled as a
list of TCBs with the current node and the ready hint held as indices; the
circular successor of the intrusive list (`list_cnext`, in `lib/list.c`,
which is not among the provided sources) is modelled from the spec's
"ordered circular list" as index increment modulo the list length. -/

structure KState where
  tasks : List Tcb
  cur : Nat
  hint : Option Nat
  deriving DecidableEq, Repr

/-- Modelled from the spec: circular successor in the master task list. -/
def list_cnext (n i : Nat) : Nat := (i + 1) % n

/-- Safety limit for scheduler iterations, `SCHED_IMAX` in `sys/task.h`. -/
def SCHED_IMAX : Nat := 500

/-- The saturating countdown decrement of one scheduler visit:
C `uint8_t counter = task->prio & 0xFF; if (counter) counter--;`. -/
def counter_dec (task : Tcb) : Nat :=
  if prio_counter task.prio ≠ 0 then prio_counter task.prio - 1
  else prio_counter task.prio

/-- The priority word written back after the decrement:
C `task->prio = (task->prio & 0xFF00) | counter;`. -/
def visit_decrement (task : Tcb) : Tcb :=
  { task with prio := prio_set_counter task.prio (counter_dec task) }

/-- The counter reload performed on the selected task:
C `counter = (task->prio >> 8) & 0xFF; task->prio = (task->prio & 0xFF00) | counter;`. -/
def visit_reload (t1 : Tcb) : Tcb :=
  { t1 with prio := prio_set_counter t1.prio (prio_base t1.prio) }

/-- The bounded circular walk of `find_next_ready_task` (the part after the
hint check).  One fuel unit is one execution of the `while (itcnt++ <
SCHED_IMAX)` body.  Returns the updated task list, the selected index (if
any), and the number of loop iterations executed. -/
def find_loop : List Tcb → Nat → Nat → List Tcb × Option Nat × Nat
  | tasks, _, 0 => (tasks, none, 0)
  | tasks, i, fuel + 1 =>
      match tasks[list_cnext tasks.length i]? with
      | none => (tasks, none, 1)
      | some task =>
          if task.state ≠ TaskState.ready ∨ task.rt_prio = true then
            let r := find_loop tasks (list_cnext tasks.length i) fuel
            (r.1, r.2.1, r.2.2 + 1)
          else if counter_dec task = 0 then
            ((tasks.set (list_cnext tasks.length i) (visit_decrement task)).set
               (list_cnext tasks.length i) (visit_reload (visit_decrement task)),
             some (list_cnext tasks.length i), 1)
          else
            let r := find_loop
              (tasks.set (list_cnext tasks.length i) (visit_decrement task))
              (list_cnext tasks.length i) fuel
            (r.1, r.2.1, r.2.2 + 1)

/-- The part of `find_next_ready_task` after the hint check: run the bounded
circular walk from the current node with `SCHED_IMAX` fuel.  On success the
hint is updated; on failure it is cleared (`kcb->last_ready_hint = NULL`). -/
def find_next_loop_part (ks : KState) : KState × Option Nat :=
  match find_loop ks.tasks ks.cur SCHED_IMAX with
  | (ts, some j, _) => ({ ks with tasks := ts, hint := some j }, some j)
  | (ts, none, _) => ({ ks with tasks := ts, hint := none }, none)

/-- `find_next_ready_task`: try the cached `last_ready_hint` first (a READY,
non-RT task whose countdown is already zero is returned after reloading its
counter), then fall through to the bounded circular walk. -/
def find_next_ready_task (ks : KState) : KState × Option Nat :=
  match ks.hint with
  | some h =>
      match ks.tasks[h]? with
      | some t =>
          if t.state = TaskState.ready ∧ ¬ t.rt_prio = true ∧
              prio_counter t.prio = 0 then
            ({ ks with tasks := (ks.tasks.set h
                { t with prio := prio_set_counter t.prio (prio_base t.prio) }) },
             some h)
          else find_next_loop_part ks
      | none => find_next_loop_part ks
  | none => find_next_loop_part ks

/-- The first step of `schedule_next_task`: mark the previously running task
as ready for the next cycle. -/
def sched_mark_current_ready (ks : KState) : KState :=
  match ks.tasks[ks.cur]? with
  | none => ks
  | some cur_t =>
      if cur_t.state = TaskState.running then
        { ks with tasks :=
            ks.tasks.set ks.cur { cur_t with state := TaskState.ready } }
      else ks

/-- `schedule_next_task`: panic (`NO_TASKS`) when there is no current node or
the ready search fails; otherwise make the found task current and
`RUNNING`, returning its id. -/
def schedule_next_task (ks : KState) : Except Int (KState × Nat) :=
  match ks.tasks[ks.cur]? with
  | none => Except.error ERR_NO_TASKS
  | some _ =>
      let ks1 := sched_mark_current_ready ks
      match find_next_ready_task ks1 with
      | (ks2, some j) =>
          match ks2.tasks[j]? with
          | some nt =>
              Except.ok
                ({ ks2 with
                    tasks := ks2.tasks.set j { nt with state := TaskState.running },
                    cur := j }, nt.id)
          | none => Except.error ERR_NO_TASKS
      | (_, none) => Except.error ERR_NO_TASKS

/-- `delay_update`: a `BLOCKED` task with an active delay has the delay
decremented; on reaching zero it becomes `READY`.  All other tasks are left
untouched. -/
def delay_update (t : Tcb) : Tcb :=
  if t.state = TaskState.blocked ∧ 0 < t.delay then
    if t.delay - 1 = 0 then
      { t with delay := t.delay - 1, state := TaskState.ready }
    else { t with delay := t.delay - 1 }
  else t

/-- `find_task_node_by_id`'s result as an index: the first task in master
list order whose id matches (the lookup cache holds the same TCB, so it
never changes the outcome). -/
def find_task_index : List Tcb → Nat → Option Nat
  | [], _ => none
  | t :: rest, id =>
      if t.id = id then some 0 else (find_task_index rest id).map (· + 1)

/-- `mo_task_suspend` (without the final self-yield, which is a separate
scheduling step): a `READY`, `RUNNING` or `BLOCKED` task becomes
`SUSPENDED`; the ready hint is cleared if it pointed at it. -/
def mo_task_suspend (ks : KState) (id : Nat) : KState × Int :=
  if id = 0 then (ks, ERR_TASK_NOT_FOUND)
  else
    match find_task_index ks.tasks id with
    | none => (ks, ERR_TASK_NOT_FOUND)
    | some idx =>
        match ks.tasks[idx]? with
        | none => (ks, ERR_TASK_NOT_FOUND)
        | some t =>
            if t.state = TaskState.ready ∨ t.state = TaskState.running ∨
                t.state = TaskState.blocked then
              ({ ks with
                  tasks := ks.tasks.set idx { t with state := TaskState.suspended },
                  hint := if ks.hint = some idx then none else ks.hint },
               ERR_OK)
            else (ks, ERR_TASK_CANT_SUSPEND)

/-- `mo_task_resume`: only a `SUSPENDED` task can be resumed; it becomes
`READY` immediately (its `delay` field is not consulted). -/
def mo_task_resume (ks : KState) (id : Nat) : KState × Int :=
  if id = 0 then (ks, ERR_TASK_NOT_FOUND)
  else
    match find_task_index ks.tasks id with
    | none => (ks, ERR_TASK_NOT_FOUND)
    | some idx =>
        match ks.tasks[idx]? with
        | none => (ks, ERR_TASK_NOT_FOUND)
        | some t =>
            if t.state ≠ TaskState.suspended then (ks, ERR_TASK_CANT_RESUME)
            else
              ({ ks with
                  tasks := ks.tasks.set idx { t with state := TaskState.ready } },
               ERR_OK)

/-- One kernel event affecting the scheduler state: a delay-aging pass of the
dispatcher (`tick`), a context-switch selection (`sched`), or a
suspend/resume call.  Calls that fail leave the state unchanged. -/
inductive KOp
  | tick
  | sched
  | suspend (id : Nat)
  | resume (id : Nat)
  deriving DecidableEq, Repr

/-- Effect of one kernel event on the scheduler state. -/
def kop_apply (ks : KState) (op : KOp) : KState :=
  match op with
  | KOp.tick => { ks with tasks := ks.tasks.map delay_update }
  | KOp.sched =>
      match schedule_next_task ks with
      | Except.ok (ks2, _) => ks2
      | Except.error _ => ks
  | KOp.suspend id => (mo_task_suspend ks id).1
  | KOp.resume id => (mo_task_resume ks id).1

/-- The per-task fields the scheduler walk never changes: id, lifecycle
state and delay (the walk touches only the priority word). -/
def task_sig (t : Tcb) : Nat × TaskState × Nat := (t.id, t.state, t.delay)

/-- Every task with the given id is currently `SUSPENDED`. -/
def TasksSusp (i : Nat) (tasks : List Tcb) : Prop :=
  ∀ (k : Nat) (t : Tcb), tasks[k]? = some t → t.id = i →
    t.state = TaskState.suspended

/-! ### Bounded FIFO queue

Modelled from the spec: the generic fixed-capacity FIFO ring (`lib/queue.c`)
is not among the provided sources.  The spec (§2b, §3) describes it as a
fixed-capacity FIFO; its caller in `mqueue.c` documents `queue_enqueue` as
returning 0 on success and an error on a full queue, which the spec (§4.5)
names BUSY.  Items are held oldest first. -/

structure Queue (α : Type) where
  items : List α
  cap : Nat
  deriving DecidableEq, Repr

/-- Modelled from the spec: number of items currently queued. -/
def queue_count {α : Type} (q : Queue α) : Nat := q.items.length

/-- Modelled from the spec: append at the tail; on a full queue fail with the
BUSY code and leave the queue unchanged. -/
def queue_enqueue {α : Type} (q : Queue α) (x : α) : Queue α × Int :=
  if queue_count q ≥ q.cap then (q, ERR_TASK_BUSY)
  else ({ q with items := q.items ++ [x] }, ERR_OK)

/-- Modelled from the spec: remove and return the oldest item; `none` on an
empty queue. -/
def queue_dequeue {α : Type} (q : Queue α) : Option α × Queue α :=
  match q.items with
  | [] => (none, q)
  | x :: rest => (some x, { q with items := rest })

/-! ### Counting semaphore

From the semaphore source (`mo_sem_*`).  As for mutexes, the magic word is
modelled as a boolean.  `SEM_MAX_COUNT` is declared in `sys/semaphore.h`,
which is not among the provided sources; the spec says only that `count`
saturates at a documented ceiling, so the ceiling is a parameter here. -/

structure SemState where
  wait_q : Queue Tcb
  count : Int
  max_waiters : Nat
  magic_valid : Bool
  deriving DecidableEq, Repr

/-- `sem_is_valid` from the semaphore source. -/
def sem_is_valid (s : SemState) : Bool := s.magic_valid

/-- `mo_sem_signal`.  The result carries the updated semaphore, the waiter
moved to `TASK_READY` (if any) and the `should_yield` flag; `Except.error`
models `panic` (invalid semaphore, or a dequeued waiter that is not
`TASK_BLOCKED`). -/
def mo_sem_signal (semMax : Int) (s : SemState) :
    Except Int (SemState × Option Tcb × Bool) :=
  if ¬ sem_is_valid s then Except.error ERR_SEM_OPERATION
  else if queue_count s.wait_q > 0 then
    match queue_dequeue s.wait_q with
    | (some awakened, q2) =>
        if awakened.state = TaskState.blocked then
          Except.ok ({ s with wait_q := q2 },
                     some { awakened with state := TaskState.ready }, true)
        else Except.error ERR_SEM_OPERATION
    | (none, _) => Except.ok (s, none, false)
  else
    Except.ok
      ({ s with count := if s.count < semMax then s.count + 1 else s.count },
       none, false)

/-! ### Message queue

From `mqueue.c`: a thin locked wrapper over the bounded FIFO, carrying opaque
message pointers (modelled as `Nat`). -/

/-- `mo_mq_enqueue`: passes the message to `queue_enqueue` under the queue
lock and returns its code. -/
def mo_mq_enqueue (mq : Queue Nat) (msg : Nat) : Queue Nat × Int :=
  queue_enqueue mq msg

/-! ### Byte pipe

From the pipe source (`mo_pipe_*`): a power-of-two ring buffer.  The byte
array is modelled as a function from index to byte value; `mask` is
capacity − 1.  The C code indexes with `& mask`, written `&&&` here. -/

structure PipeState where
  buf : Nat → Nat
  mask : Nat
  head : Nat
  tail : Nat
  used : Nat

/-- Modelled from the spec: power-of-two test from `private/utils.h`, which
is not among the provided sources.  `n` is a power of two exactly when it
equals `2 ^ clog2 n`. -/
def ispowerof2 (n : Nat) : Bool := n = 2 ^ Nat.clog 2 n

/-- Modelled from the spec: round up to the next power of two
(`private/utils.h` is not among the provided sources; the spec says the
requested pipe capacity is rounded up to a power of two). -/
def nextpowerof2 (n : Nat) : Nat := 2 ^ Nat.clog 2 n

/-- `pipe_is_empty` from the pipe source. -/
def pipe_is_empty (p : PipeState) : Bool := p.used = 0

/-- `pipe_is_full` from the pipe source. -/
def pipe_is_full (p : PipeState) : Bool := p.used = p.mask + 1

/-- `pipe_get_byte`: read at `head`, advance `head` modulo the capacity,
decrement `used`. -/
def pipe_get_byte (p : PipeState) : Nat × PipeState :=
  (p.buf p.head,
   { p with head := (p.head + 1) &&& p.mask, used := p.used - 1 })

/-- `pipe_put_byte`: write at `tail`, advance `tail` modulo the capacity,
increment `used`. -/
def pipe_put_byte (p : PipeState) (c : Nat) : PipeState :=
  { p with buf := fun i => if i = p.tail then c else p.buf i,
           tail := (p.tail + 1) &&& p.mask,
           used := p.used + 1 }

/-- `mo_pipe_create`: the requested size is clamped to at least 2 and rounded
up to a power of two; `mask = size − 1` and the indices start at zero. -/
def mo_pipe_create (size : Nat) : PipeState :=
  let size1 := if size < 2 then 2 else size
  let size2 := if ispowerof2 size1 then size1 else nextpowerof2 size1
  { buf := fun _ => 0, mask := size2 - 1, head := 0, tail := 0, used := 0 }

/-- `mo_pipe_flush`: reset the indices and the fill count. -/
def mo_pipe_flush (p : PipeState) : PipeState :=
  { p with head := 0, tail := 0, used := 0 }

/-- The loop of `mo_pipe_nbread`: drain up to `len` bytes while the pipe is
non-empty; returns the final pipe and the bytes read. -/
def mo_pipe_nbread (p : PipeState) (len : Nat) : PipeState × List Nat :=
  match len with
  | 0 => (p, [])
  | n + 1 =>
      if pipe_is_empty p then (p, [])
      else
        let (c, p1) := pipe_get_byte p
        let (p2, cs) := mo_pipe_nbread p1 n
        (p2, c :: cs)

/-- The loop of `mo_pipe_nbwrite`: store bytes from `src` while the pipe is
not full; returns the final pipe and the number of bytes written. -/
def mo_pipe_nbwrite (p : PipeState) (src : List Nat) : PipeState × Nat :=
  match src with
  | [] => (p, 0)
  | c :: rest =>
      if pipe_is_full p then (p, 0)
      else
        let p1 := pipe_put_byte p c
        let (p2, n) := mo_pipe_nbwrite p1 rest
        (p2, n + 1)

/-- One pipe access as performed inside a single critical section.  The
blocking `mo_pipe_read` / `mo_pipe_write` loops transfer one byte per lock
acquisition after waiting for the guard (`pipe_wait_until_readable` /
`_writable`), so a whole blocking call is a sequence of `readByte` /
`writeByte` steps. -/
inductive PipeOp where
  | readByte
  | writeByte (c : Nat)
  | nbread (len : Nat)
  | nbwrite (src : List Nat)
  | flush

/-- Effect of one pipe access on the pipe state. -/
def pipe_apply (p : PipeState) (op : PipeOp) : PipeState :=
  match op with
  | PipeOp.readByte => if pipe_is_empty p then p else (pipe_get_byte p).2
  | PipeOp.writeByte c => if pipe_is_full p then p else pipe_put_byte p c
  | PipeOp.nbread len => (mo_pipe_nbread p len).1
  | PipeOp.nbwrite src => (mo_pipe_nbwrite p src).1
  | PipeOp.flush => mo_pipe_flush p

/-- The pipe invariant of the spec (P5): the capacity `mask + 1` is a power
of two of at least 2, the fill count never exceeds the capacity, and both
indices stay within `[0, mask]`. -/
def PipeInv (p : PipeState) : Prop :=
  ispowerof2 (p.mask + 1) = true ∧ 2 ≤ p.mask + 1 ∧
  p.used ≤ p.mask + 1 ∧ p.head ≤ p.mask ∧ p.tail ≤ p.mask

instance (p : PipeState) : Decidable (PipeInv p) := by
  unfold PipeInv; infer_instance

/-! ### Software timers

From the timer source.  A timer's callback and argument are opaque; invoking
a callback is modelled by the timer's appearance, in firing order, in the
processed-timer list returned by the tick handler.  `MS_TO_TICKS` lives in
the HAL header, which is not among the provided sources, so the
milliseconds-to-ticks conversion is a parameter. -/

inductive TimerMode
  | disabled
  | oneshot
  | autoreload
  deriving DecidableEq, Repr

structure Timer where
  id : Nat
  period_ms : Nat
  deadline_ticks : Nat
  mode : TimerMode
  deriving DecidableEq, Repr

/-- `timer_sorted_insert`: insert into the deadline-sorted active list,
before the first entry with a strictly larger deadline (the C loop breaks on
`timer->deadline_ticks < current_timer->deadline_ticks`). -/
def timer_sorted_insert (t : Timer) : List Timer → List Timer
  | [] => [t]
  | x :: xs =>
      if t.deadline_ticks < x.deadline_ticks then t :: x :: xs
      else x :: timer_sorted_insert t xs

/-- The collection loop of `_timer_tick_handler`: pop expired timers
(`now ≥ deadline`) from the head while fewer than 8 have been collected,
stopping at the first unexpired head.  Returns the collected batch in pop
order and the remaining active list. -/
def timer_collect (now : Nat) : List Timer → Nat → List Timer × List Timer
  | [], _ => ([], [])
  | t :: rest, cnt =>
      if cnt < 8 then
        if now ≥ t.deadline_ticks then
          let p := timer_collect now rest (cnt + 1)
          (t :: p.1, p.2)
        else ([], t :: rest)
      else ([], t :: rest)

/-- The processing loop of `_timer_tick_handler`: for each collected timer in
order, run its callback; an `AUTORELOAD` timer gets
`deadline = now + MS_TO_TICKS(period_ms)` and is reinserted into the active
list in sorted order, any other timer is marked `DISABLED`.  Returns the
final active list and the processed timers (final field values, firing
order). -/
def timer_fire (msToTicks : Nat → Nat) (now : Nat) :
    List Timer → List Timer → List Timer × List Timer
  | [], active => (active, [])
  | t :: rest, active =>
      if t.mode = TimerMode.autoreload then
        let t2 := { t with deadline_ticks := now + msToTicks t.period_ms }
        let p := timer_fire msToTicks now rest (timer_sorted_insert t2 active)
        (p.1, t2 :: p.2)
      else
        let t2 := { t with mode := TimerMode.disabled }
        let p := timer_fire msToTicks now rest active
        (p.1, t2 :: p.2)

/-- `_timer_tick_handler` (the leading underscore of the C name is dropped):
early-out on an empty active list, then collect and process. -/
def timer_tick_handler (msToTicks : Nat → Nat) (now : Nat)
    (active : List Timer) : List Timer × List Timer :=
  if active.isEmpty then (active, [])
  else
    let p := timer_collect now active 0
    timer_fire msToTicks now p.1 p.2

/-- The per-timer post-processing described by the spec: an `AUTORELOAD`
timer is re-armed at `now + MS_TO_TICKS(period_ms)`, anything else is
`DISABLED`. -/
def timer_rearm (msToTicks : Nat → Nat) (now : Nat) (t : Timer) : Timer :=
  if t.mode = TimerMode.autoreload then
    { t with deadline_ticks := now + msToTicks t.period_ms }
  else { t with mode := TimerMode.disabled }

/-- Deadline order on the active list. -/
def TimerLE (a b : Timer) : Prop := a.deadline_ticks ≤ b.deadline_ticks

instance : DecidableRel TimerLE := fun a b => by
  unfold TimerLE; infer_instance

theorem pipe_get_byte_inv (p : PipeState) (hp : PipeInv p) :
    PipeInv (pipe_get_byte p).2 := by
  obtain ⟨h1, h2, h3, h4, h5⟩ := hp
  exact ⟨h1, h2, by simp [pipe_get_byte]; omega,
         Nat.and_le_right, h5⟩

theorem pipe_put_byte_inv (p : PipeState) (c : Nat) (hp : PipeInv p)
    (hnf : ¬ pipe_is_full p = true) : PipeInv (pipe_put_byte p c) := by
  obtain ⟨h1, h2, h3, h4, h5⟩ := hp
  simp [pipe_is_full] at hnf
  exact ⟨h1, h2, by simp [pipe_put_byte]; omega, h4, Nat.and_le_right⟩

theorem mo_pipe_nbread_inv (len : Nat) (p : PipeState) (hp : PipeInv p) :
    PipeInv (mo_pipe_nbread p len).1 := by
  induction len generalizing p with
  | zero => exact hp
  | succ n ih =>
      unfold mo_pipe_nbread
      split
      · exact hp
      · exact ih _ (pipe_get_byte_inv p hp)

theorem mo_pipe_nbwrite_inv (src : List Nat) (p : PipeState) (hp : PipeInv p) :
    PipeInv (mo_pipe_nbwrite p src).1 := by
  induction src generalizing p with
  | nil => exact hp
  | cons c rest ih =>
      unfold mo_pipe_nbwrite
      split
      · exact hp
      · rename_i hnf
        exact ih _ (pipe_put_byte_inv p c hp hnf)

theorem pipe_apply_inv (p : PipeState) (op : PipeOp) (hp : PipeInv p) :
    PipeInv (pipe_apply p op) := by
  cases op with
  | readByte =>
      by_cases h : pipe_is_empty p = true
      · simpa [pipe_apply, h] using hp
      · simpa [pipe_apply, h] using pipe_get_byte_inv p hp
  | writeByte c =>
      by_cases h : pipe_is_full p = true
      · simpa [pipe_apply, h] using hp
      · simpa [pipe_apply, h] using pipe_put_byte_inv p c hp h
  | nbread len => exact mo_pipe_nbread_inv len p hp
  | nbwrite src => exact mo_pipe_nbwrite_inv src p hp
  | flush =>
      obtain ⟨h1, h2, h3, h4, h5⟩ := hp
      exact ⟨h1, h2, Nat.zero_le _, Nat.zero_le _, Nat.zero_le _⟩

theorem mo_pipe_create_capacity (size : Nat) :
    PipeInv (mo_pipe_create size) ∧ size ≤ (mo_pipe_create size).mask + 1 := by
  have h2 : (1 : Nat) < 2 := by norm_num
  unfold mo_pipe_create
  set s1 := if size < 2 then 2 else size with hs1def
  have hs1 : 2 ≤ s1 ∧ size ≤ s1 := by rw [hs1def]; split <;> omega
  by_cases hpw : ispowerof2 s1 = true
  · have hcap : (s1 - 1) + 1 = s1 := by omega
    refine ⟨⟨?_, ?_, ?_, ?_, ?_⟩, ?_⟩ <;>
      simp only [if_pos hpw, hcap] <;> first | exact hpw | omega
  · have hge : s1 ≤ 2 ^ Nat.clog 2 s1 := Nat.le_pow_clog h2 s1
    have hcap : (nextpowerof2 s1 - 1) + 1 = 2 ^ Nat.clog 2 s1 := by
      unfold nextpowerof2
      have : 1 ≤ 2 ^ Nat.clog 2 s1 := Nat.one_le_two_pow
      omega
    have hpow : ispowerof2 (2 ^ Nat.clog 2 s1) = true := by
      simp [ispowerof2, Nat.clog_pow 2 _ h2]
    refine ⟨⟨?_, ?_, ?_, ?_, ?_⟩, ?_⟩ <;>
      simp only [if_neg hpw, hcap] <;> first | exact hpow | omega

theorem mem_timer_sorted_insert (b t : Timer) (l : List Timer) :
    b ∈ timer_sorted_insert t l ↔ b = t ∨ b ∈ l := by
  induction l with
  | nil => simp [timer_sorted_insert]
  | cons x xs ih =>
      unfold timer_sorted_insert
      split
      · simp
      · simp [ih]
        tauto

theorem timer_sorted_insert_sorted (t : Timer) (l : List Timer)
    (hl : List.Sorted TimerLE l) :
    List.Sorted TimerLE (timer_sorted_insert t l) := by
  induction l with
  | nil => simp [timer_sorted_insert]
  | cons x xs ih =>
      rw [List.sorted_cons] at hl
      unfold timer_sorted_insert
      split
      · rename_i hlt
        rw [List.sorted_cons]
        refine ⟨fun b hb => ?_, List.sorted_cons.mpr hl⟩
        rcases List.mem_cons.mp hb with hbx | hbxs
        · exact hbx ▸ Nat.le_of_lt hlt
        · exact Nat.le_trans (Nat.le_of_lt hlt) (hl.1 b hbxs)
      · rename_i hge
        rw [List.sorted_cons]
        refine ⟨fun b hb => ?_, ih hl.2⟩
        rcases (mem_timer_sorted_insert b t xs).mp hb with hbt | hbxs
        · exact hbt ▸ Nat.le_of_not_lt hge
        · exact hl.1 b hbxs

theorem timer_collect_eq (now : Nat) (l : List Timer) (cnt : Nat)
    (hc : cnt ≤ 8) :
    timer_collect now l cnt =
      ((l.takeWhile fun t => t.deadline_ticks ≤ now).take (8 - cnt),
       l.drop ((l.takeWhile fun t => t.deadline_ticks ≤ now).take (8 - cnt)).length) := by
  induction l generalizing cnt with
  | nil => simp [timer_collect]
  | cons t rest ih =>
      unfold timer_collect
      by_cases h8 : cnt < 8
      · by_cases hexp : t.deadline_ticks ≤ now
        · have h7 : cnt + 1 ≤ 8 := h8
          rw [if_pos h8, if_pos hexp, ih (cnt + 1) h7]
          have htw : (t :: rest).takeWhile (fun t => decide (t.deadline_ticks ≤ now)) =
              t :: rest.takeWhile (fun t => decide (t.deadline_ticks ≤ now)) := by
            simp [List.takeWhile_cons, hexp]
          have hsub : 8 - cnt = (8 - (cnt + 1)) + 1 := by omega
          simp only [htw, hsub, List.take_succ_cons, List.length_cons,
            List.drop_succ_cons]
        · rw [if_pos h8, if_neg hexp]
          have htw : (t :: rest).takeWhile (fun t => decide (t.deadline_ticks ≤ now)) =
              ([] : List Timer) := by
            simp [List.takeWhile_cons, hexp]
          simp [htw]
      · have hcnt : cnt = 8 := by omega
        rw [if_neg h8]
        simp [hcnt]

theorem timer_fire_eq (msToTicks : Nat → Nat) (now : Nat) (e : List Timer)
    (active : List Timer) :
    timer_fire msToTicks now e active =
      (e.foldl (fun acc t =>
          if t.mode = TimerMode.autoreload then
            timer_sorted_insert (timer_rearm msToTicks now t) acc
          else acc) active,
       e.map (timer_rearm msToTicks now)) := by
  induction e generalizing active with
  | nil => simp [timer_fire]
  | cons t rest ih =>
      unfold timer_fire
      by_cases hm : t.mode = TimerMode.autoreload
      · simp only [if_pos hm, ih, List.foldl_cons, List.map_cons]
        simp [timer_rearm, hm]
      · simp only [if_neg hm, ih, List.foldl_cons, List.map_cons]
        simp [timer_rearm, hm]

theorem timer_fire_sorted (msToTicks : Nat → Nat) (now : Nat) (e : List Timer)
    (active : List Timer) (ha : List.Sorted TimerLE active) :
    List.Sorted TimerLE (timer_fire msToTicks now e active).1 := by
  induction e generalizing active with
  | nil => exact ha
  | cons t rest ih =>
      unfold timer_fire
      by_cases hm : t.mode = TimerMode.autoreload
      · simp only [if_pos hm]
        exact ih _ (timer_sorted_insert_sorted _ _ ha)
      · simp only [if_neg hm]
        exact ih _ ha


theorem find_loop_count (fuel : Nat) :
    ∀ (tasks : List Tcb) (i : Nat), (find_loop tasks i fuel).2.2 ≤ fuel := by
  induction fuel with
  | zero => intro tasks i; simp [find_loop]
  | succ f ih =>
      intro tasks i
      unfold find_loop
      cases h : tasks[list_cnext tasks.length i]? with
      | none => simp [h]
      | some task =>
          simp only [h]
          split
          · exact Nat.add_le_add_right (ih _ _) 1
          · split
            · exact Nat.succ_le_succ (Nat.zero_le f)
            · exact Nat.add_le_add_right (ih _ _) 1

theorem getElem?_eq_some_lt {tasks : List Tcb} {j : Nat} {t : Tcb}
    (h : tasks[j]? = some t) : j < tasks.length :=
  (List.getElem?_eq_some.mp h).1

/-- A `set` with an element of unchanged signature preserves all signatures. -/
theorem set_sig (tasks : List Tcb) (j : Nat) (t t' : Tcb)
    (h : tasks[j]? = some t) (hsig : task_sig t' = task_sig t) (k : Nat) :
    ((tasks.set j t')[k]?).map task_sig = (tasks[k]?).map task_sig := by
  by_cases hkj : j = k
  · subst hkj
    rw [List.getElem?_set_self (getElem?_eq_some_lt h), h]
    simp [hsig]
  · rw [List.getElem?_set_ne hkj]

set_option maxRecDepth 2000 in
/-- The circular ready walk changes only priority words: every task keeps its
id, lifecycle state and delay. -/
theorem find_loop_sig (fuel : Nat) :
    ∀ (tasks : List Tcb) (i k : Nat),
      (((find_loop tasks i fuel).1)[k]?).map task_sig =
        (tasks[k]?).map task_sig := by
  induction fuel with
  | zero => intro tasks i k; rfl
  | succ f ih =>
      intro tasks i k
      unfold find_loop
      cases h : tasks[list_cnext tasks.length i]? with
      | none => simp only [h]
      | some task =>
          simp only [h]
          have hset := set_sig tasks (list_cnext tasks.length i) task
            (visit_decrement task) h rfl
          split
          · exact ih _ _ _
          · split
            · have h1 : (tasks.set (list_cnext tasks.length i)
                  (visit_decrement task))[list_cnext tasks.length i]? =
                  some (visit_decrement task) :=
                List.getElem?_set_self (by simpa using getElem?_eq_some_lt h)
              have hset2 := set_sig
                (tasks.set (list_cnext tasks.length i) (visit_decrement task))
                (list_cnext tasks.length i) (visit_decrement task)
                (visit_reload (visit_decrement task)) h1 rfl
              exact (hset2 k).trans (hset k)
            · exact (ih _ _ k).trans (hset k)

/-- A task selected by the circular ready walk was READY when visited, and is
still READY (with a reloaded counter) in the returned list. -/
theorem find_loop_selected (fuel : Nat) :
    ∀ (tasks : List Tcb) (i j : Nat), (find_loop tasks i fuel).2.1 = some j →
      ∃ t, ((find_loop tasks i fuel).1)[j]? = some t ∧
        t.state = TaskState.ready := by
  induction fuel with
  | zero => intro tasks i j h; simp [find_loop] at h
  | succ f ih =>
      intro tasks i j h
      unfold find_loop at h ⊢
      cases hget : tasks[list_cnext tasks.length i]? with
      | none => simp only [hget] at h; simp at h
      | some task =>
          simp only [hget] at h ⊢
          split at h
          · rename_i hskip
            rw [if_pos hskip]
            exact ih _ _ _ h
          · rename_i hskip
            rw [if_neg hskip]
            split at h
            · rename_i hc
              rw [if_pos hc]
              have hj : list_cnext tasks.length i = j := by simpa using h
              subst hj
              push_neg at hskip
              refine ⟨visit_reload (visit_decrement task), ?_, ?_⟩
              · exact List.getElem?_set_self (by simpa using getElem?_eq_some_lt hget)
              · exact hskip.1
            · rename_i hc
              rw [if_neg hc]
              exact ih _ _ _ h

theorem delay_update_id (u : Tcb) : (delay_update u).id = u.id := by
  unfold delay_update
  split
  · split <;> rfl
  · rfl

theorem delay_update_suspended (u : Tcb)
    (h : u.state = TaskState.suspended) : delay_update u = u := by
  simp [delay_update, h]

/-- Signature-preserving task-list transformations preserve `TasksSusp`. -/
theorem tasksSusp_of_sig (i : Nat) (tasks tasks2 : List Tcb)
    (hsig : ∀ k : Nat, (tasks2[k]?).map task_sig = (tasks[k]?).map task_sig)
    (h : TasksSusp i tasks) : TasksSusp i tasks2 := by
  intro k t hk hid
  have hs := hsig k
  rw [hk] at hs
  cases hu : tasks[k]? with
  | none => rw [hu] at hs; simp at hs
  | some u =>
      rw [hu] at hs
      simp only [Option.map_some'] at hs
      have hsig2 : t.id = u.id ∧ t.state = u.state ∧ t.delay = u.delay := by
        simpa [task_sig, Prod.ext_iff] using hs
      rw [hsig2.2.1]
      exact h k u hu (hsig2.1 ▸ hid)

theorem find_next_loop_part_sig (ks : KState) (k : Nat) :
    (((find_next_loop_part ks).1.tasks)[k]?).map task_sig =
      (ks.tasks[k]?).map task_sig := by
  unfold find_next_loop_part
  rcases hfl : find_loop ks.tasks ks.cur SCHED_IMAX with ⟨ts, o, c⟩
  have hsig := find_loop_sig SCHED_IMAX ks.tasks ks.cur k
  rw [hfl] at hsig
  cases o <;> simpa using hsig

theorem find_next_loop_part_selected (ks : KState) (j : Nat)
    (h : (find_next_loop_part ks).2 = some j) :
    ∃ t, ((find_next_loop_part ks).1.tasks)[j]? = some t ∧
      t.state = TaskState.ready := by
  unfold find_next_loop_part at h ⊢
  rcases hfl : find_loop ks.tasks ks.cur SCHED_IMAX with ⟨ts, o, c⟩
  rw [hfl] at h
  cases o with
  | none => simp at h
  | some j2 =>
      have hj2 : j2 = j := by simpa using h
      subst hj2
      have hsel := find_loop_selected SCHED_IMAX ks.tasks ks.cur j2
      rw [hfl] at hsel
      rcases hsel rfl with ⟨t, ht, hready⟩
      exact ⟨t, by simpa using ht, hready⟩

/-- The complete ready search (hint check plus circular walk) preserves every
task's id, state and delay. -/
theorem find_next_sig (ks : KState) (k : Nat) :
    (((find_next_ready_task ks).1.tasks)[k]?).map task_sig =
      (ks.tasks[k]?).map task_sig := by
  cases hh : ks.hint with
  | none =>
      simp only [find_next_ready_task, hh]
      exact find_next_loop_part_sig ks k
  | some h =>
      cases hth : ks.tasks[h]? with
      | none =>
          simp only [find_next_ready_task, hh, hth]
          exact find_next_loop_part_sig ks k
      | some t =>
          simp only [find_next_ready_task, hh, hth]
          split
          · exact set_sig ks.tasks h t
              { t with prio := prio_set_counter t.prio (prio_base t.prio) }
              hth rfl k
          · exact find_next_loop_part_sig ks k

/-- The complete ready search only ever selects a READY task. -/
theorem find_next_selected (ks : KState) (j : Nat)
    (h : (find_next_ready_task ks).2 = some j) :
    ∃ t, ((find_next_ready_task ks).1.tasks)[j]? = some t ∧
      t.state = TaskState.ready := by
  cases hh : ks.hint with
  | none =>
      simp only [find_next_ready_task, hh] at h ⊢
      exact find_next_loop_part_selected ks j h
  | some hidx =>
      cases hth : ks.tasks[hidx]? with
      | none =>
          simp only [find_next_ready_task, hh, hth] at h ⊢
          exact find_next_loop_part_selected ks j h
      | some t =>
          simp only [find_next_ready_task, hh, hth] at h ⊢
          split at h
          · rename_i hcond
            rw [if_pos hcond]
            have hj : hidx = j := by simpa using h
            subst hj
            refine ⟨{ t with prio := prio_set_counter t.prio (prio_base t.prio) },
              ?_, hcond.1⟩
            exact List.getElem?_set_self (getElem?_eq_some_lt hth)
          · rename_i hcond
            rw [if_neg hcond]
            exact find_next_loop_part_selected ks j h

/-- `find_task_node_by_id` finds a node whose task carries the requested
id. -/
theorem find_task_index_spec :
    ∀ (tasks : List Tcb) (id idx : Nat),
      find_task_index tasks id = some idx →
      ∃ t, tasks[idx]? = some t ∧ t.id = id := by
  intro tasks
  induction tasks with
  | nil => intro id idx h; simp [find_task_index] at h
  | cons t rest ih =>
      intro id idx h
      unfold find_task_index at h
      split at h
      · rename_i hid
        have : idx = 0 := by simpa using h.symm
        subst this
        exact ⟨t, by simp, hid⟩
      · rcases Option.map_eq_some'.mp h with ⟨idx2, hfind, hsucc⟩
        rcases ih id idx2 hfind with ⟨u, hu, huid⟩
        subst hsucc
        exact ⟨u, by simpa using hu, huid⟩

theorem tasksSusp_tick (i : Nat) (tasks : List Tcb) (h : TasksSusp i tasks) :
    TasksSusp i (tasks.map delay_update) := by
  intro k t hk hid
  rw [List.getElem?_map] at hk
  cases hu : tasks[k]? with
  | none => rw [hu] at hk; simp at hk
  | some u =>
      rw [hu] at hk
      simp only [Option.map_some', Option.some.injEq] at hk
      have hui : u.id = i := by
        rw [← hk] at hid
        rwa [delay_update_id] at hid
      have hus := h k u hu hui
      rw [← hk, delay_update_suspended u hus]
      exact hus

/-- Setting an entry that is either suspended or carries a different id
preserves `TasksSusp`. -/
theorem tasksSusp_set (i : Nat) (tasks : List Tcb) (idx : Nat) (t2 : Tcb)
    (h : TasksSusp i tasks)
    (hcase : t2.id = i → t2.state = TaskState.suspended) :
    TasksSusp i (tasks.set idx t2) := by
  intro k t hk hid
  by_cases hkj : idx = k
  · subst hkj
    have hlt : idx < tasks.length := by
      have := getElem?_eq_some_lt hk
      simpa using this
    rw [List.getElem?_set_self hlt] at hk
    simp only [Option.some.injEq] at hk
    rw [← hk]
    exact hcase (hk ▸ hid)
  · rw [List.getElem?_set_ne hkj] at hk
    exact h k t hk hid

theorem tasksSusp_suspend (i id : Nat) (ks : KState) (h : TasksSusp i ks.tasks) :
    TasksSusp i (mo_task_suspend ks id).1.tasks := by
  by_cases h0 : id = 0
  · simp only [mo_task_suspend, if_pos h0]; exact h
  · simp only [mo_task_suspend, if_neg h0]
    cases hfi : find_task_index ks.tasks id with
    | none => exact h
    | some idx =>
        cases hti : ks.tasks[idx]? with
        | none => simp only [hti]; exact h
        | some t =>
            simp only [hti]
            split
            · exact tasksSusp_set i ks.tasks idx _ h (fun _ => rfl)
            · exact h

theorem tasksSusp_resume (i id : Nat) (hne : id ≠ i) (ks : KState)
    (h : TasksSusp i ks.tasks) :
    TasksSusp i (mo_task_resume ks id).1.tasks := by
  by_cases h0 : id = 0
  · simp only [mo_task_resume, if_pos h0]; exact h
  · simp only [mo_task_resume, if_neg h0]
    cases hfi : find_task_index ks.tasks id with
    | none => exact h
    | some idx =>
        cases hti : ks.tasks[idx]? with
        | none => simp only [hti]; exact h
        | some t =>
            simp only [hti]
            split
            · exact h
            · rcases find_task_index_spec ks.tasks id idx hfi with ⟨u, hu, huid⟩
              have htid : t.id = id := by
                rw [hti] at hu
                simp only [Option.some.injEq] at hu
                rw [hu]; exact huid
              refine tasksSusp_set i ks.tasks idx _ h ?_
              intro hid2
              exact ((hne (htid ▸ hid2)).elim)

theorem tasksSusp_mark (i : Nat) (ks : KState) (h : TasksSusp i ks.tasks) :
    TasksSusp i (sched_mark_current_ready ks).tasks := by
  unfold sched_mark_current_ready
  cases hc : ks.tasks[ks.cur]? with
  | none => exact h
  | some cur_t =>
      simp only []
      split
      · rename_i hrun
        refine tasksSusp_set i ks.tasks ks.cur _ h ?_
        intro hid
        have hsus := h ks.cur cur_t hc hid
        rw [hsus] at hrun
        cases hrun
      · exact h

theorem tasksSusp_sched (i : Nat) (ks : KState) (h : TasksSusp i ks.tasks) :
    TasksSusp i (kop_apply ks KOp.sched).tasks := by
  unfold kop_apply
  cases hs : schedule_next_task ks with
  | error e => exact h
  | ok r =>
      dsimp only
      unfold schedule_next_task at hs
      cases hc : ks.tasks[ks.cur]? with
      | none => rw [hc] at hs; simp at hs
      | some cur_t =>
          simp only [hc] at hs
          rcases hfind : find_next_ready_task (sched_mark_current_ready ks)
            with ⟨ks2, o⟩
          rw [hfind] at hs
          cases o with
          | none => simp at hs
          | some j =>
              cases hnt : ks2.tasks[j]? with
              | none =>
                  simp only [hnt] at hs
                  exact (Except.noConfusion hs)
              | some nt =>
                  simp only [hnt, Except.ok.injEq] at hs
                  have h1 : TasksSusp i (sched_mark_current_ready ks).tasks :=
                    tasksSusp_mark i ks h
                  have h2 : TasksSusp i ks2.tasks := by
                    refine tasksSusp_of_sig i _ _ (fun k => ?_) h1
                    have hsig := find_next_sig (sched_mark_current_ready ks) k
                    rw [hfind] at hsig
                    simpa using hsig
                  have hsel := find_next_selected (sched_mark_current_ready ks) j
                    (by rw [hfind])
                  rw [hfind] at hsel
                  rcases hsel with ⟨t, ht, hready⟩
                  have hteq : nt = t := by simpa [hnt] using ht
                  rw [← hteq] at hready
                  rw [← hs]
                  exact tasksSusp_set i ks2.tasks j
                    { nt with state := TaskState.running } h2
                    (fun hid2 => by
                      have hsus := h2 j nt hnt hid2
                      rw [hsus] at hready
                      exact absurd hready (by decide))

/-- A task all of whose id-mates are suspended can never run (or change at
all) while no `resume` targets that id: every kernel event preserves the
suspension. -/
theorem tasksSusp_ops (i : Nat) (ops : List KOp) :
    ∀ s : KState, TasksSusp i s.tasks →
      (∀ op ∈ ops, op ≠ KOp.resume i) →
      TasksSusp i ((ops.foldl kop_apply s).tasks) := by
  induction ops with
  | nil => intro s hs _; exact hs
  | cons op rest ih =>
      intro s hs hno
      have hstep : TasksSusp i ((kop_apply s op).tasks) := by
        cases op with
        | tick => exact tasksSusp_tick i s.tasks hs
        | sched => exact tasksSusp_sched i s hs
        | suspend id => exact tasksSusp_suspend i id s hs
        | resume id =>
            have hne : id ≠ i := by
              intro hcontra
              exact (hno (KOp.resume id) (by simp)) (by rw [hcontra])
            exact tasksSusp_resume i id hne s hs
      exact ih (kop_apply s op) hstep
        (fun op2 h2 => hno op2 (List.mem_cons_of_mem op h2))

theorem tasksSusp_of_forall (i : Nat) (tasks : List Tcb)
    (h : ∀ t ∈ tasks, t.id = i → t.state = TaskState.suspended) :
    TasksSusp i tasks :=
  fun _ t hk hid => h t (List.getElem?_mem hk) hid

/-- Claim C3, counterexample: task 2 is BLOCKED with 5 delay ticks pending,
is suspended (permitted) and then resumed; the very next scheduling pass — no
tick has elapsed, so the block condition is not satisfied — selects task 2
and makes it RUNNING with `delay` still 5.  Resumption is *not* deferred
until the original block condition holds. -/
theorem c3_resume_runs_with_pending_delay :
    ([KOp.suspend 2, KOp.resume 2, KOp.sched]).foldl kop_apply
      ⟨[⟨1, 0x1F00, 0, TaskState.running, false⟩,
        ⟨2, 0x1F00, 5, TaskState.blocked, false⟩], 0, none⟩ =
      ⟨[⟨1, 0x1F00, 0, TaskState.ready, false⟩,
        ⟨2, 0x1F1F, 5, TaskState.running, false⟩], 1, some 1⟩ := by
  decide

/-- Claim C3, amended: a task suspended by `mo_task_suspend` while `BLOCKED`
(a permitted transition) stays `SUSPENDED` — in particular it never runs —
across every sequence of tick, scheduling, suspend and resume events that
does not resume its id; `mo_task_resume` then sets it `READY` immediately,
its remaining delay untouched and not waited out. -/
theorem c3_suspend_blocked_deferred (i : Nat) (ops : List KOp) (s : KState)
    (hsusp : TasksSusp i s.tasks)
    (hnores : ∀ op ∈ ops, op ≠ KOp.resume i) :
    (∀ pre suf : List KOp, pre ++ suf = ops →
      TasksSusp i ((pre.foldl kop_apply s).tasks) ∧
      ∀ (k : Nat) (t : Tcb), ((pre.foldl kop_apply s).tasks)[k]? = some t →
        t.id = i → t.state ≠ TaskState.running) ∧
    (∀ (ks : KState) (id idx : Nat) (t : Tcb), id ≠ 0 →
      find_task_index ks.tasks id = some idx → ks.tasks[idx]? = some t →
      t.state = TaskState.blocked →
      mo_task_suspend ks id =
        ({ ks with
            tasks := ks.tasks.set idx { t with state := TaskState.suspended },
            hint := if ks.hint = some idx then none else ks.hint }, ERR_OK)) ∧
    (∀ (ks : KState) (id idx : Nat) (t : Tcb), id ≠ 0 →
      find_task_index ks.tasks id = some idx → ks.tasks[idx]? = some t →
      t.state = TaskState.suspended →
      mo_task_resume ks id =
        ({ ks with
            tasks := ks.tasks.set idx { t with state := TaskState.ready } },
         ERR_OK)) := by
  refine ⟨fun pre suf hps => ?_, fun ks id idx t h0 hfi hti hblk => ?_,
    fun ks id idx t h0 hfi hti hsus => ?_⟩
  · have hpre : ∀ op ∈ pre, op ≠ KOp.resume i := fun op hop =>
      hnores op (hps ▸ List.mem_append_left suf hop)
    have h1 := tasksSusp_ops i pre s hsusp hpre
    refine ⟨h1, fun k t hk hid => ?_⟩
    rw [h1 k t hk hid]
    decide
  · simp only [mo_task_suspend, if_neg h0, hfi, hti]
    rw [if_pos (Or.inr (Or.inr hblk))]
  · simp only [mo_task_resume, if_neg h0, hfi, hti]
    rw [if_neg (fun hcon => hcon hsus)]

/-- Claim C3, witness for the amended theorem: task 2, suspended with 3 delay
ticks pending, is still suspended after a delay-aging tick and a scheduling
pass (during which task 1 keeps running). -/
theorem c3_suspend_blocked_deferred_witness :
    TasksSusp 2 ((([KOp.tick, KOp.sched]).foldl kop_apply
      ⟨[⟨1, 0x1F00, 0, TaskState.running, false⟩,
        ⟨2, 0x1F00, 3, TaskState.suspended, false⟩], 0, none⟩).tasks) := by
  have h := c3_suspend_blocked_deferred 2 [KOp.tick, KOp.sched]
    ⟨[⟨1, 0x1F00, 0, TaskState.running, false⟩,
      ⟨2, 0x1F00, 3, TaskState.suspended, false⟩], 0, none⟩
    (tasksSusp_of_forall 2 _ (by decide))
    (by decide)
  exact (h.1 [KOp.tick, KOp.sched] [] rfl).1

/-- Claim C5: the ready-task search is capped at `SCHED_IMAX = 500` loop
iterations over the circular task list (each iteration visits one node), and
when no task's countdown reaches zero within the cap the search returns
nothing and `schedule_next_task` panics with `NO_TASKS` instead of looping
further. -/
theorem c5_sched_iteration_cap :
    SCHED_IMAX = 500 ∧
    (∀ (tasks : List Tcb) (i : Nat), (find_loop tasks i SCHED_IMAX).2.2 ≤ 500) ∧
    (∀ ks : KState,
      (find_next_ready_task (sched_mark_current_ready ks)).2 = none →
      schedule_next_task ks = Except.error ERR_NO_TASKS) := by
  refine ⟨rfl, fun tasks i => find_loop_count SCHED_IMAX tasks i, fun ks h => ?_⟩
  rcases hfind : find_next_ready_task (sched_mark_current_ready ks) with ⟨ks2, o⟩
  rw [hfind] at h
  cases o with
  | some j => simp at h
  | none =>
      unfold schedule_next_task
      cases hc : ks.tasks[ks.cur]? with
      | none => simp [hc]
      | some cur_t => simp [hc, hfind]

set_option maxRecDepth 8000 in
/-- Claim C5, witness: with a single suspended task no countdown ever reaches
zero, the 500-iteration search fails, and the scheduler panics with
`NO_TASKS`. -/
theorem c5_sched_iteration_cap_witness :
    schedule_next_task ⟨[⟨1, 0x1F1F, 0, TaskState.suspended, false⟩], 0, none⟩ =
      Except.error ERR_NO_TASKS := by
  exact c5_sched_iteration_cap.2.2
    ⟨[⟨1, 0x1F1F, 0, TaskState.suspended, false⟩], 0, none⟩ (by decide)

/-- Claim C8: on a tick at time `now`, the timer handler pops expired timers
(`deadline ≤ now`) from the head of the deadline-sorted active list, stopping
at the first unexpired head or after 8 timers; the collected timers are
processed — callbacks invoked — in pop order, each `AUTORELOAD` timer
re-armed at `now + MS_TO_TICKS(period_ms)` and reinserted in sorted order
(the final active list is again deadline-sorted), every other collected
timer marked `DISABLED`. -/
theorem c8_timer_tick_batch (msToTicks : Nat → Nat) (now : Nat)
    (active : List Timer) (hs : List.Sorted TimerLE active) :
    (timer_tick_handler msToTicks now active).2 =
      ((active.takeWhile fun t => t.deadline_ticks ≤ now).take 8).map
        (timer_rearm msToTicks now) ∧
    (timer_tick_handler msToTicks now active).1 =
      ((active.takeWhile fun t => t.deadline_ticks ≤ now).take 8).foldl
        (fun acc t =>
          if t.mode = TimerMode.autoreload then
            timer_sorted_insert (timer_rearm msToTicks now t) acc
          else acc)
        (active.drop
          ((active.takeWhile fun t => t.deadline_ticks ≤ now).take 8).length) ∧
    List.Sorted TimerLE (timer_tick_handler msToTicks now active).1 := by
  by_cases hemp : active.isEmpty
  · rcases List.isEmpty_iff.mp hemp with rfl
    simp [timer_tick_handler]
  · have hdrop : List.Sorted TimerLE (active.drop
        ((active.takeWhile fun t => t.deadline_ticks ≤ now).take 8).length) :=
      List.Pairwise.sublist (List.drop_sublist _ _) hs
    unfold timer_tick_handler
    rw [if_neg hemp, timer_collect_eq now active 0 (by omega),
        timer_fire_eq msToTicks now]
    refine ⟨rfl, rfl, ?_⟩
    have hfs := timer_fire_sorted msToTicks now
      ((active.takeWhile fun t => t.deadline_ticks ≤ now).take 8)
      (active.drop
        ((active.takeWhile fun t => t.deadline_ticks ≤ now).take 8).length)
      hdrop
    rwa [timer_fire_eq] at hfs

/-- Claim C8, witness: at tick 10 with identity ms-to-ticks conversion, the
sorted active list with deadlines 5 (AUTORELOAD), 7 (ONESHOT), 100 (ONESHOT)
fires the two expired timers in deadline order, re-arms the autoreload one at
`10 + 100 = 110` behind the unexpired timer, and disables the oneshot. -/
theorem c8_timer_tick_batch_witness :
    (timer_tick_handler (fun ms => ms) 10
      [⟨1, 100, 5, TimerMode.autoreload⟩, ⟨2, 50, 7, TimerMode.oneshot⟩,
       ⟨3, 10, 100, TimerMode.oneshot⟩]).2 =
      [⟨1, 100, 110, TimerMode.autoreload⟩, ⟨2, 50, 7, TimerMode.disabled⟩] ∧
    (timer_tick_handler (fun ms => ms) 10
      [⟨1, 100, 5, TimerMode.autoreload⟩, ⟨2, 50, 7, TimerMode.oneshot⟩,
       ⟨3, 10, 100, TimerMode.oneshot⟩]).1 =
      [⟨3, 10, 100, TimerMode.oneshot⟩, ⟨1, 100, 110, TimerMode.autoreload⟩] := by
  have h := c8_timer_tick_batch (fun ms => ms) 10
    [⟨1, 100, 5, TimerMode.autoreload⟩, ⟨2, 50, 7, TimerMode.oneshot⟩,
     ⟨3, 10, 100, TimerMode.oneshot⟩] (by decide)
  refine ⟨?_, ?_⟩
  · rw [h.1]; rfl
  · rw [h.2.1]; rfl

/-- Claim C7: the pipe built by `mo_pipe_create` satisfies the ring-buffer
invariant — capacity `mask + 1` a power of two, at least 2, and at least the
requested size; `used` between 0 and the capacity; `head` and `tail` within
`[0, mask]` — and the invariant is preserved by every sequence of pipe
accesses (per-byte transfers of the blocking `read`/`write`, `nbread`,
`nbwrite`, `flush`). -/
theorem c7_pipe_ring_invariant (size : Nat) (ops : List PipeOp) (p : PipeState)
    (hp : PipeInv p) :
    (PipeInv (mo_pipe_create size) ∧ size ≤ (mo_pipe_create size).mask + 1) ∧
    PipeInv (ops.foldl pipe_apply p) := by
  refine ⟨mo_pipe_create_capacity size, ?_⟩
  induction ops generalizing p with
  | nil => exact hp
  | cons op rest ih => exact ih _ (pipe_apply_inv p op hp)

/-- Claim C7, witness: a pipe requested at size 5 is created with capacity 8,
and after a write, a read, a flush, a 3-byte non-blocking write and a 2-byte
non-blocking read the invariant still holds. -/
theorem c7_pipe_ring_invariant_witness :
    (PipeInv (mo_pipe_create 5) ∧ 5 ≤ (mo_pipe_create 5).mask + 1) ∧
    PipeInv (([PipeOp.writeByte 65, PipeOp.readByte, PipeOp.flush,
               PipeOp.nbwrite [1, 2, 3], PipeOp.nbread 2]).foldl pipe_apply
              (mo_pipe_create 5)) := by
  exact c7_pipe_ring_invariant 5 _ (mo_pipe_create 5)
    (by simp [PipeInv, mo_pipe_create, ispowerof2, nextpowerof2, Nat.clog])

/-- Claim C1: on a valid semaphore, `mo_sem_signal` performs exactly one of
two effects.  With a non-empty wait queue it dequeues the oldest waiter —
which must be `BLOCKED`, otherwise the kernel panics — readies it and leaves
`count` unchanged; with an empty wait queue it increments `count`, saturating
at the `SEM_MAX_COUNT` ceiling, and wakes nobody. -/
theorem c1_sem_signal_token_passing (semMax : Int) (s : SemState)
    (hv : s.magic_valid = true) :
    (∀ w rest, s.wait_q.items = w :: rest →
      (w.state = TaskState.blocked →
        mo_sem_signal semMax s =
          Except.ok ({ s with wait_q := { s.wait_q with items := rest } },
                     some { w with state := TaskState.ready }, true)) ∧
      (w.state ≠ TaskState.blocked →
        mo_sem_signal semMax s = Except.error ERR_SEM_OPERATION)) ∧
    (s.wait_q.items = [] →
      mo_sem_signal semMax s =
        Except.ok
          ({ s with count := if s.count < semMax then s.count + 1 else s.count },
           none, false) ∧
      (s.count ≤ semMax →
        (if s.count < semMax then s.count + 1 else s.count) ≤ semMax)) := by
  refine ⟨fun w rest hq => ⟨fun hblk => ?_, fun hnblk => ?_⟩, fun hemp => ⟨?_, fun hle => ?_⟩⟩
  · simp [mo_sem_signal, sem_is_valid, hv, queue_count, queue_dequeue, hq, hblk]
  · simp [mo_sem_signal, sem_is_valid, hv, queue_count, queue_dequeue, hq, hnblk]
  · simp [mo_sem_signal, sem_is_valid, hv, queue_count, queue_dequeue, hemp]
  · split <;> omega

/-- Claim C1, witness: signalling a valid semaphore with blocked task `4`
waiting hands the token over (count stays `0`); the empty-queue case at
`count = 2`, ceiling `3`, increments to `3`. -/
theorem c1_sem_signal_witness :
    mo_sem_signal 3 ⟨⟨[⟨4, 0, 0, TaskState.blocked, false⟩], 8⟩, 0, 8, true⟩ =
      Except.ok (⟨⟨[], 8⟩, 0, 8, true⟩,
                 some ⟨4, 0, 0, TaskState.ready, false⟩, true) ∧
    mo_sem_signal 3 ⟨⟨[], 8⟩, 2, 8, true⟩ =
      Except.ok (⟨⟨[], 8⟩, 3, 8, true⟩, none, false) := by
  constructor
  · exact ((c1_sem_signal_token_passing 3
      ⟨⟨[⟨4, 0, 0, TaskState.blocked, false⟩], 8⟩, 0, 8, true⟩ rfl).1
      ⟨4, 0, 0, TaskState.blocked, false⟩ [] rfl).1 rfl
  · have h := ((c1_sem_signal_token_passing 3 ⟨⟨[], 8⟩, 2, 8, true⟩ rfl).2 rfl).1
    simpa using h

/-- Claim C6: `mo_mq_enqueue` returns the `TASK_BUSY` code and leaves the
queue unchanged when the bounded FIFO is full, and returns `OK` (which the
spec pins to 0) after appending the message otherwise. -/
theorem c6_mq_enqueue_busy_on_full (mq : Queue Nat) (msg : Nat) :
    (queue_count mq ≥ mq.cap → mo_mq_enqueue mq msg = (mq, ERR_TASK_BUSY)) ∧
    (queue_count mq < mq.cap →
      mo_mq_enqueue mq msg = ({ mq with items := mq.items ++ [msg] }, ERR_OK)) ∧
    ERR_OK = 0 := by
  refine ⟨fun hfull => ?_, fun hroom => ?_, rfl⟩
  · simp [mo_mq_enqueue, queue_enqueue, hfull]
  · simp [mo_mq_enqueue, queue_enqueue, Nat.not_le.mpr hroom]

/-- Claim C6, witness: a full two-slot queue rejects message `9` with
`TASK_BUSY`; a queue with room appends it with `OK`. -/
theorem c6_mq_enqueue_witness :
    mo_mq_enqueue ⟨[1, 2], 2⟩ 9 = (⟨[1, 2], 2⟩, ERR_TASK_BUSY) ∧
    mo_mq_enqueue ⟨[1], 2⟩ 9 = (⟨[1, 9], 2⟩, ERR_OK) := by
  constructor
  · exact (c6_mq_enqueue_busy_on_full ⟨[1, 2], 2⟩ 9).1 (by decide)
  · exact (c6_mq_enqueue_busy_on_full ⟨[1], 2⟩ 9).2.1 (by decide)

/-- Claim C2, counterexample: the task built by `mo_task_spawn` does *not*
carry the base byte duplicated into both halves of its priority word — the
word is `0x1F00`, whose countdown (low) byte `0` differs from its base (high)
byte `0x1F`. -/
theorem c2_spawn_prio_not_duplicated :
    (mo_task_spawn_tcb 1).prio = 0x1F00 ∧
    prio_counter (mo_task_spawn_tcb 1).prio ≠ prio_base (mo_task_spawn_tcb 1).prio := by
  constructor
  · rfl
  · decide

/-- Claim C2, amended: `mo_task_spawn` stores the NORMAL base weight `0x1F` in
the high byte and leaves the live countdown (low) byte at `0`, so a new task
is immediately eligible; the byte-duplicated form (low byte equal to the base
byte) holds for the eight named priority constants and for the word written
by `mo_task_priority`. -/
theorem c2_priority_word_layout :
    (∀ id : Nat,
      (mo_task_spawn_tcb id).prio = prio_base TASK_PRIO_NORMAL * 256 ∧
      prio_counter (mo_task_spawn_tcb id).prio = 0 ∧
      prio_base (mo_task_spawn_tcb id).prio = prio_base TASK_PRIO_NORMAL) ∧
    (∀ p ∈ valid_priorities, prio_counter p = prio_base p) ∧
    (∀ p : Nat, is_valid_priority p = true →
      prio_counter (mo_task_priority_prio p) = prio_base p ∧
      prio_base (mo_task_priority_prio p) = prio_base p) := by
  refine ⟨fun id => ⟨rfl, ?_, ?_⟩, by decide, fun p _ => ?_⟩
  · show prio_counter mo_task_spawn_prio = 0
    decide
  · show prio_base mo_task_spawn_prio = prio_base TASK_PRIO_NORMAL
    decide
  · unfold mo_task_priority_prio prio_counter prio_base
    have hb : p / 256 % 256 < 256 := Nat.mod_lt _ (by norm_num)
    generalize p / 256 % 256 = b at hb ⊢
    have h1 : (b * 256 + b) / 256 = b := by omega
    refine ⟨by omega, ?_⟩
    rw [h1, Nat.mod_eq_of_lt hb]

/-- Claim C2, witness for the amended theorem at the concrete priority
`TASK_PRIO_HIGH`. -/
theorem c2_priority_word_layout_witness :
    prio_counter (mo_task_priority_prio TASK_PRIO_HIGH) = prio_base TASK_PRIO_HIGH := by
  exact (c2_priority_word_layout.2.2 TASK_PRIO_HIGH (by decide)).1

/-- Claim C4: `mo_mutex_unlock` on a valid mutex returns `NOT_OWNER` and
leaves the mutex unchanged when the caller does not own it; called by the
owner with no waiters it clears `owner_tid` to 0; called by the owner with a
non-empty FIFO it pops the head waiter, hands `owner_tid` to that waiter's
id, and moves the (necessarily `BLOCKED`) waiter to `READY`. -/
theorem c4_mutex_unlock_cases (m : MutexState) (tid : Nat)
    (hv : m.magic_valid = true) :
    (m.owner_tid ≠ tid →
      mo_mutex_unlock m tid = Except.ok (m, none, ERR_NOT_OWNER)) ∧
    (m.owner_tid = tid → m.waiters = [] →
      mo_mutex_unlock m tid = Except.ok ({ m with owner_tid := 0 }, none, ERR_OK)) ∧
    (∀ w rest, m.owner_tid = tid → m.waiters = w :: rest →
      w.state = TaskState.blocked →
      mo_mutex_unlock m tid =
        Except.ok ({ m with owner_tid := w.id, waiters := rest },
                   some { w with state := TaskState.ready }, ERR_OK)) := by
  refine ⟨fun hno => ?_, fun hown hemp => ?_, fun w rest hown hw hblk => ?_⟩
  · simp [mo_mutex_unlock, mutex_is_valid, hv, hno]
  · simp [mo_mutex_unlock, mutex_is_valid, hv, hown, hemp]
  · simp [mo_mutex_unlock, mutex_is_valid, hv, hown, hw, hblk]

/-- Claim C4, witness: owner `1` unlocking with waiter task `7` blocked at the
head of the FIFO hands ownership to task `7` and readies it. -/
theorem c4_mutex_unlock_witness :
    mo_mutex_unlock ⟨[⟨7, 0, 0, TaskState.blocked, false⟩], 1, true⟩ 1 =
      Except.ok (⟨[], 7, true⟩, some ⟨7, 0, 0, TaskState.ready, false⟩, ERR_OK) := by
  exact (c4_mutex_unlock_cases ⟨[⟨7, 0, 0, TaskState.blocked, false⟩], 1, true⟩ 1
    rfl).2.2 ⟨7, 0, 0, TaskState.blocked, false⟩ [] rfl rfl rfl

/-- Claim C9: a zero-timeout `mo_mutex_timedlock` on a valid mutex never
reaches the blocking protocol and behaves exactly as `mo_mutex_trylock`:
`OK` (acquiring ownership) when the mutex is free, `TASK_BUSY` otherwise,
including when the caller already owns it; it never returns `TIMEOUT`. -/
theorem c9_timedlock_zero (m : MutexState) (tid : Nat)
    (hv : m.magic_valid = true) :
    mo_mutex_timedlock_entry m tid 0 = some (mo_mutex_trylock m tid) ∧
    (m.owner_tid = tid → mo_mutex_trylock m tid = (m, ERR_TASK_BUSY)) ∧
    (m.owner_tid ≠ tid → m.owner_tid = 0 →
      mo_mutex_trylock m tid = ({ m with owner_tid := tid }, ERR_OK)) ∧
    (m.owner_tid ≠ tid → m.owner_tid ≠ 0 →
      mo_mutex_trylock m tid = (m, ERR_TASK_BUSY)) ∧
    (mo_mutex_trylock m tid).2 ≠ ERR_TIMEOUT := by
  refine ⟨?_, fun hself => ?_, fun hns hfree => ?_, fun hns hheld => ?_, ?_⟩
  · simp [mo_mutex_timedlock_entry, mutex_is_valid, hv]
  · simp [mo_mutex_trylock, mutex_is_valid, hv, hself]
  · have hns0 : ¬ ((0 : Nat) = tid) := fun h => hns (hfree.trans h)
    simp [mo_mutex_trylock, mutex_is_valid, hv, hfree, hns0]
  · simp [mo_mutex_trylock, mutex_is_valid, hv, hns, hheld]
  · unfold mo_mutex_trylock mutex_is_valid
    split
    · simp [ERR_FAIL, ERR_TIMEOUT]
    · split
      · simp [ERR_TASK_BUSY, ERR_TIMEOUT]
      · split
        · simp [ERR_OK, ERR_TIMEOUT]
        · simp [ERR_TASK_BUSY, ERR_TIMEOUT]

/-- Claim C9, witness: zero-timeout lock of the free valid mutex by task `3`
acquires it with `OK`. -/
theorem c9_timedlock_zero_witness :
    mo_mutex_timedlock_entry ⟨[], 0, true⟩ 3 0 = some (mo_mutex_trylock ⟨[], 0, true⟩ 3) ∧
    mo_mutex_trylock ⟨[], 0, true⟩ 3 = (⟨[], 3, true⟩, ERR_OK) := by
  have h := c9_timedlock_zero ⟨[], 0, true⟩ 3 rfl
  exact ⟨h.1, h.2.2.1 (by decide) rfl⟩

/-- Claim C10: `mo_task_delay 0` returns immediately — the caller's TCB is
unchanged and no yield occurs — while for every positive tick count the
caller is set to `BLOCKED` with `delay = n` before yielding. -/
theorem c10_task_delay (self : Tcb) (n : Nat) (hn : 0 < n) :
    mo_task_delay self 0 = (self, false) ∧
    mo_task_delay self n =
      ({ self with delay := n, state := TaskState.blocked }, true) := by
  constructor
  · rfl
  · simp [mo_task_delay, Nat.pos_iff_ne_zero.mp hn]

/-- Claim C10, witness: delaying task `1` by `5` ticks blocks it with
`delay = 5` and yields; delaying by `0` is the identity with no yield. -/
theorem c10_task_delay_witness :
    mo_task_delay ⟨1, 0x1F00, 0, TaskState.running, false⟩ 0 =
      (⟨1, 0x1F00, 0, TaskState.running, false⟩, false) ∧
    mo_task_delay ⟨1, 0x1F00, 0, TaskState.running, false⟩ 5 =
      (⟨1, 0x1F00, 5, TaskState.blocked, false⟩, true) := by
  exact c10_task_delay ⟨1, 0x1F00, 0, TaskState.running, false⟩ 5 (by decide)

end Linmo
